import Mathlib

-- Verification of the request-logging module (codex-rs/core/src/request_logging.rs).
--
-- The development shallowly embeds the module's data and operations:
--  * a JSON value model with the compact serializer used by serde_json's
--    to_writer (including its string-escaping rules) and a pretty serializer
--    matching to_writer_pretty;
--  * the six emit operations of RequestAttemptLogger and write_json_line,
--    modelled over an explicit file-sink state with failure injection for the
--    serialization / write / flush steps and an explicit poisoned-lock flag;
--  * an interleaving small-step semantics for concurrent emitters sharing one
--    locked file handle;
--  * a small filesystem model for RequestLogger::from_env and
--    RequestLogger::log_request (directory creation, create-or-truncate file
--    opening, request-record writing).
-- A character-level JSON parser is defined in order to state and prove the
-- round-trip property of written response lines.

namespace RequestLogging

/-- JSON values as produced by the module.  serde_json::Value objects are
backed by a BTreeMap, so an object's fields are kept as an association list
that the construction functions below maintain in sorted key order. -/
inductive Json where
  | null
  | bool (b : Bool)
  | num (n : Nat)
  | str (s : String)
  | arr (elems : List Json)
  | obj (fields : List (String × Json))

/-- Decimal digit character, as emitted by itoa for u16/u64 values. -/
def decDigit (d : Nat) : Char :=
  match d with
  | 0 => '0' | 1 => '1' | 2 => '2' | 3 => '3' | 4 => '4'
  | 5 => '5' | 6 => '6' | 7 => '7' | 8 => '8' | _ => '9'

/-- Lowercase hex digit character, as in serde_json's escape table. -/
def hexDigit (d : Nat) : Char :=
  match d with
  | 0 => '0' | 1 => '1' | 2 => '2' | 3 => '3' | 4 => '4'
  | 5 => '5' | 6 => '6' | 7 => '7' | 8 => '8' | 9 => '9'
  | 10 => 'a' | 11 => 'b' | 12 => 'c' | 13 => 'd' | 14 => 'e' | _ => 'f'

/-- Little-endian decimal digits of n; the fuel argument only bounds the
recursion depth (n+1 always suffices) so that the kernel can evaluate it. -/
def natCharsRevAux : Nat → Nat → List Char
  | 0, _ => []
  | Nat.succ fuel, n =>
    if n < 10 then [decDigit n]
    else decDigit (n % 10) :: natCharsRevAux fuel (n / 10)

/-- Decimal representation of a natural number, most significant digit
first: exactly the bytes serde_json writes for an unsigned integer. -/
def natChars (n : Nat) : List Char :=
  (natCharsRevAux (n + 1) n).reverse

/-- serde_json's escaping of one character inside a JSON string: quote and
backslash are escaped, control characters use the short escapes b, t, n, f, r
when available and \u00XX otherwise, and every other character is emitted
unchanged. -/
def escChar (c : Char) : List Char :=
  if c = '"' then ['\\', '"']
  else if c = '\\' then ['\\', '\\']
  else if c = '\x08' then ['\\', 'b']
  else if c = '\x09' then ['\\', 't']
  else if c = '\x0a' then ['\\', 'n']
  else if c = '\x0c' then ['\\', 'f']
  else if c = '\x0d' then ['\\', 'r']
  else if c.toNat < 32 then
    let hi := hexDigit (c.toNat / 16)
    let lo := hexDigit (c.toNat % 16)
    '\\' :: 'u' :: '0' :: '0' :: hi :: [lo]
  else [c]

/-- Escape a whole character sequence. -/
def escList : List Char → List Char
  | [] => []
  | c :: t => escChar c ++ escList t

/-- Characters of a keyword literal written by the serializer. -/
def litChars (s : String) : List Char := s.data

/-- Lexicographic order on character sequences by code point.  This is the
order Rust's Ord for String induces (UTF-8 byte order coincides with code
point order), hence the key order of the BTreeMaps used by the module. -/
def charsLt : List Char → List Char → Bool
  | _, [] => false
  | [], _ :: _ => true
  | x :: xs, y :: ys =>
    if x < y then true
    else if y < x then false
    else charsLt xs ys

/-- String order used for BTreeMap keys. -/
def strLt (a b : String) : Bool := charsLt a.data b.data

mutual

/-- Compact serialization of a JSON value: the exact bytes serde_json's
to_writer emits (CompactFormatter: no whitespace, "," and ":" separators). -/
def serJson : Json → List Char
  | .null => litChars "null"
  | .bool true => litChars "true"
  | .bool false => litChars "false"
  | .num n => natChars n
  | .str s => '"' :: (escList s.data ++ ['"'])
  | .arr [] => ['[', ']']
  | .arr (x :: t) => '[' :: (serJson x ++ serArrTail t ++ [']'])
  | .obj [] => ['\x7b', '\x7d']
  | .obj (kv :: t) => '\x7b' :: (serObjField kv ++ serObjTail t ++ ['\x7d'])

/-- One object field: quoted escaped key, colon, value. -/
def serObjField : String × Json → List Char
  | (k, v) => '"' :: (escList k.data ++ ['"', ':'] ++ serJson v)

/-- Remaining array elements, each preceded by a comma. -/
def serArrTail : List Json → List Char
  | [] => []
  | x :: t => ',' :: (serJson x ++ serArrTail t)

/-- Remaining object fields, each preceded by a comma. -/
def serObjTail : List (String × Json) → List Char
  | [] => []
  | kv :: t => ',' :: (serObjField kv ++ serObjTail t)

end

/-- Digit test on characters. -/
def isDigitChar (c : Char) : Bool := 48 ≤ c.toNat && c.toNat ≤ 57

/-- Numeric value of a decimal digit character. -/
def digitVal (c : Char) : Nat := c.toNat - 48

/-- Lowercase-hex digit test. -/
def isHexChar (c : Char) : Bool :=
  (48 ≤ c.toNat && c.toNat ≤ 57) || (97 ≤ c.toNat && c.toNat ≤ 102)

/-- Numeric value of a lowercase hex digit character. -/
def hexVal (c : Char) : Nat := if c.toNat ≤ 57 then c.toNat - 48 else c.toNat - 87

/-- Decoding of a single-character JSON escape. -/
def escDecode (c : Char) : Option Char :=
  if c = '"' then some '"'
  else if c = '\\' then some '\\'
  else if c = '/' then some '/'
  else if c = 'b' then some '\x08'
  else if c = 'f' then some '\x0c'
  else if c = 'n' then some '\x0a'
  else if c = 'r' then some '\x0d'
  else if c = 't' then some '\x09'
  else none

/-- All four characters are hex digits. -/
def isHex4 (h1 h2 h3 h4 : Char) : Bool :=
  isHexChar h1 && isHexChar h2 && isHexChar h3 && isHexChar h4

/-- Numeric value of a four-hex-digit escape. -/
def hexQuad (h1 h2 h3 h4 : Char) : Nat :=
  4096 * hexVal h1 + 256 * hexVal h2 + 16 * hexVal h3 + hexVal h4

/-- Parse the body of a JSON string up to and including the closing quote,
returning the decoded characters and the unconsumed input. -/
def parseStringBody : List Char → Option (List Char × List Char)
  | [] => none
  | '"' :: more => some ([], more)
  | '\\' :: 'u' :: h1 :: h2 :: h3 :: h4 :: more =>
    if isHex4 h1 h2 h3 h4 then
      (parseStringBody more).map fun out => (Char.ofNat (hexQuad h1 h2 h3 h4) :: out.1, out.2)
    else none
  | '\\' :: esc :: more =>
    match escDecode esc with
    | some decoded => (parseStringBody more).map fun out => (decoded :: out.1, out.2)
    | none => none
  | ch :: more => (parseStringBody more).map fun out => (ch :: out.1, out.2)

/-- Parse a nonempty run of decimal digits as a natural number. -/
def parseNat (cs : List Char) : Option (Nat × List Char) :=
  let ds := cs.takeWhile isDigitChar
  if ds.isEmpty then none
  else some (ds.foldl (fun a c => 10 * a + digitVal c) 0, cs.dropWhile isDigitChar)

mutual

/-- Fuel-indexed parser for a JSON value at the head of the input. -/
def parseVal : Nat → List Char → Option (Json × List Char)
  | 0, _ => none
  | Nat.succ _, [] => none
  | Nat.succ f, c :: rest =>
    if isDigitChar c then (parseNat (c :: rest)).map fun p => (Json.num p.1, p.2)
    else parseValKw f c rest

/-- Non-numeric JSON values, dispatched on the leading character. -/
def parseValKw : Nat → Char → List Char → Option (Json × List Char)
  | _, 'n', 'u' :: 'l' :: 'l' :: r => some (.null, r)
  | _, 't', 'r' :: 'u' :: 'e' :: r => some (.bool true, r)
  | _, 'f', 'a' :: 'l' :: 's' :: 'e' :: r => some (.bool false, r)
  | _, '"', r => (parseStringBody r).map fun p => (.str (String.mk p.1), p.2)
  | f, '[', r => (parseElems f r).map fun p => (.arr p.1, p.2)
  | f, '\x7b', r => (parseFields f r).map fun p => (.obj p.1, p.2)
  | _, _, _ => none

/-- Parse array elements up to and including the closing bracket. -/
def parseElems : Nat → List Char → Option (List Json × List Char)
  | 0, _ => none
  | Nat.succ _, [] => none
  | Nat.succ f, c :: rest =>
    if c = ']' then some ([], rest)
    else parseElemsTail f (parseVal f (c :: rest))

/-- Continue an element list after one parsed element: a comma continues the
list, a closing bracket ends it. -/
def parseElemsTail (f : Nat) : Option (Json × List Char) → Option (List Json × List Char)
  | some (j, ',' :: r2) => (parseElems f r2).map fun p => (j :: p.1, p.2)
  | some (j, ']' :: r2) => some ([j], r2)
  | _ => none

/-- Parse object fields up to and including the closing brace. -/
def parseFields : Nat → List Char → Option (List (String × Json) × List Char)
  | 0, _ => none
  | Nat.succ _, [] => none
  | Nat.succ f, c :: rest =>
    if c = '\x7d' then some ([], rest)
    else if c = '"' then parseFieldsKey f (parseStringBody rest)
    else none

/-- Continue an object field after its parsed key: expect a colon, then the
field's value. -/
def parseFieldsKey (f : Nat) : Option (List Char × List Char) → Option (List (String × Json) × List Char)
  | some (k, ':' :: r2) => parseFieldsVal f (String.mk k) (parseVal f r2)
  | _ => none

/-- Continue an object field list after one parsed key/value pair: a comma
continues the list, a closing brace ends it. -/
def parseFieldsVal (f : Nat) (k : String) : Option (Json × List Char) → Option (List (String × Json) × List Char)
  | some (v, ',' :: r3) => (parseFields f r3).map fun p => ((k, v) :: p.1, p.2)
  | some (v, '\x7d' :: r3) => some ([(k, v)], r3)
  | _ => none

end

mutual

/-- Fuel sufficient to parse the serialization of a value. -/
def fuelOf : Json → Nat
  | .arr l => 2 + fuelElemsOf l
  | .obj l => 2 + fuelFieldsOf l
  | _ => 1

/-- Fuel sufficient for the element list of an array. -/
def fuelElemsOf : List Json → Nat
  | [] => 0
  | x :: t => 1 + fuelOf x + fuelElemsOf t

/-- Fuel sufficient for the field list of an object. -/
def fuelFieldsOf : List (String × Json) → Nat
  | [] => 0
  | kv :: t => 1 + fuelOf kv.2 + fuelFieldsOf t

end

/-- The next input character, if any, is not a decimal digit. -/
def noDigitHead : List Char → Prop
  | [] => True
  | c :: _ => isDigitChar c = false

/-- Parse one newline-terminated JSON line (as written to the response file):
the line must consist of a single JSON value followed by exactly one
newline. -/
def parseJsonLine (line : List Char) : Option Json :=
  match parseVal (2 * line.length) line with
  | some (j, ['\x0a']) => some j
  | _ => none

/-- BTreeMap String (Vec String) insertion as performed by
entry(name).or_default().push(value): append the value to the name's bucket,
keeping keys in sorted order. -/
def headersInsert (m : List (String × List String)) (k : String) (v : String) :
    List (String × List String) :=
  match m with
  | [] => [(k, [v])]
  | (k', vs) :: t =>
    if strLt k k' then (k, [v]) :: (k', vs) :: t
    else if k = k' then (k', vs ++ [v]) :: t
    else (k', vs) :: headersInsert t k v

/-- The headers map built by log_response_start: iterate the header pairs in
emission order; a value whose HeaderValue::to_str fails (modelled as none) is
recorded as the empty string (unwrap_or_default). -/
def headers_map (headers : List (String × Option String)) : List (String × List String) :=
  headers.foldl (fun m h => headersInsert m h.1 (h.2.getD "")) []

/-- serde_json::Map (BTreeMap String→Json) insertion, as used by the json!
macro: a later binding replaces an earlier one with the same key, keys kept
in sorted order. -/
def objInsert (m : List (String × Json)) (k : String) (v : Json) : List (String × Json) :=
  match m with
  | [] => [(k, v)]
  | (k', v') :: t =>
    if strLt k k' then (k, v) :: (k', v') :: t
    else if k = k' then (k, v) :: t
    else (k', v') :: objInsert t k v

/-- JSON object as built by a json! object literal: the written fields are
inserted in source order into a BTreeMap-backed map. -/
def jsonObj (fields : List (String × Json)) : Json :=
  Json.obj (fields.foldl (fun m kv => objInsert m kv.1 kv.2) [])

/-- Field lookup in a JSON object. -/
def jsonFind (j : Json) (k : String) : Option Json :=
  match j with
  | .obj fields => (fields.find? fun kv => kv.1 == k).map fun kv => kv.2
  | _ => none

/-- Lookup in the headers association map. -/
def headersLookup (k : String) : List (String × List String) → Option (List String)
  | [] => none
  | (k', vs) :: t => if k = k' then some vs else headersLookup k t

/-- Values recorded for one header name, in emission order (a none value is
recorded as the empty string). -/
def header_values (k : String) (headers : List (String × Option String)) : List String :=
  (headers.filter fun p => p.1 == k).map fun p => p.2.getD ""

/-- The six response events, carrying exactly the data the corresponding
RequestAttemptLogger method receives.  A response_started header value is
none when HeaderValue::to_str fails on it. -/
inductive ResponseEvent where
  | response_started (status : Nat) (headers : List (String × Option String))
  | sse_event (event : Option String) (data : String)
  | sse_closed (reason : String)
  | error (message : String)
  | error_response (status : Nat) (body : String)
  | info (message : String)

/-- serde_json encoding of Option<&str>. -/
def optStrJson : Option String → Json
  | none => Json.null
  | some s => Json.str s

/-- JSON value of the headers map: an object mapping each name to the array
of its values, in the map's (sorted) key order. -/
def headersJson (headers : List (String × Option String)) : Json :=
  Json.obj ((headers_map headers).map fun kv => (kv.1, Json.arr (kv.2.map Json.str)))

/-- The tagged JSON object each logging method builds (its json! literal),
with the timestamp string supplied by the clock. -/
def event_json (timestamp : String) : ResponseEvent → Json
  | .response_started status headers =>
    jsonObj [("timestamp", .str timestamp), ("type", .str "response_started"),
             ("status", .num status), ("headers", headersJson headers)]
  | .sse_event event data =>
    jsonObj [("timestamp", .str timestamp), ("type", .str "sse_event"),
             ("event", optStrJson event), ("data", .str data)]
  | .sse_closed reason =>
    jsonObj [("timestamp", .str timestamp), ("type", .str "sse_closed"),
             ("reason", .str reason)]
  | .error message =>
    jsonObj [("timestamp", .str timestamp), ("type", .str "error"),
             ("message", .str message)]
  | .error_response status body =>
    jsonObj [("timestamp", .str timestamp), ("type", .str "error_response"),
             ("status", .num status), ("body", .str body)]
  | .info message =>
    jsonObj [("timestamp", .str timestamp), ("type", .str "info"),
             ("message", .str message)]

/-- The guarded file handle: bytes already flushed to durable storage and
bytes accepted by the io::Write sink but not yet flushed. -/
structure FileSink where
  durable : List Char
  buffer : List Char

/-- Failure injection for one write_json_line call: ok (all three steps
succeed), a serialization error after the serializer pushed the given number
of bytes, an error on the newline write, or an error on the flush. -/
inductive WriteOutcome where
  | ok
  | serFail (written : Nat)
  | writeFail
  | flushFail
deriving DecidableEq

/-- The Mutex File of RequestAttemptLogInner: the sink plus whether the lock
was poisoned by a previous holder. -/
structure LogState where
  poisoned : Bool
  sink : FileSink

/-- self.inner.file.lock(): the Ok(guard) branch, or the Err(poisoned) branch
answered by poisoned.into_inner() — both branches hand back the guarded
sink rather than failing. -/
def lock_file (st : LogState) : FileSink :=
  match st.poisoned with
  | false => st.sink
  | true => st.sink

/-- write_json_line: take the lock (recovering from poisoning), serialize the
value into the guarded file, write the newline, flush; a failing step logs a
warning and returns early.  The call always returns a state — no error
reaches the caller. -/
def write_json_line (value : Json) (o : WriteOutcome) (st : LogState) : LogState :=
  let guard := lock_file st
  match o with
  | .serFail written =>
    { st with sink := { guard with buffer := guard.buffer ++ (serJson value).take written } }
  | .writeFail =>
    { st with sink := { guard with buffer := guard.buffer ++ serJson value } }
  | .flushFail =>
    { st with sink := { guard with buffer := guard.buffer ++ serJson value ++ ['\x0a'] } }
  | .ok =>
    { st with sink := { durable := guard.durable ++ guard.buffer ++ serJson value ++ ['\x0a'],
                        buffer := [] } }

/-- RequestAttemptLogger::log_response_start. -/
def log_response_start (timestamp : String) (status : Nat)
    (headers : List (String × Option String)) : WriteOutcome → LogState → LogState :=
  write_json_line (event_json timestamp (.response_started status headers))

/-- RequestAttemptLogger::log_stream_event. -/
def log_stream_event (timestamp : String) (event : Option String) (data : String) :
    WriteOutcome → LogState → LogState :=
  write_json_line (event_json timestamp (.sse_event event data))

/-- RequestAttemptLogger::log_stream_closed. -/
def log_stream_closed (timestamp : String) (reason : String) :
    WriteOutcome → LogState → LogState :=
  write_json_line (event_json timestamp (.sse_closed reason))

/-- RequestAttemptLogger::log_error. -/
def log_error (timestamp : String) (message : String) :
    WriteOutcome → LogState → LogState :=
  write_json_line (event_json timestamp (.error message))

/-- RequestAttemptLogger::log_error_response. -/
def log_error_response (timestamp : String) (status : Nat) (body : String) :
    WriteOutcome → LogState → LogState :=
  write_json_line (event_json timestamp (.error_response status body))

/-- RequestAttemptLogger::log_message. -/
def log_message (timestamp : String) (message : String) :
    WriteOutcome → LogState → LogState :=
  write_json_line (event_json timestamp (.info message))

/-- Dispatch an arbitrary event to the corresponding logging method. -/
def run_event_op (timestamp : String) : ResponseEvent → WriteOutcome → LogState → LogState
  | .response_started status headers => log_response_start timestamp status headers
  | .sse_event event data => log_stream_event timestamp event data
  | .sse_closed reason => log_stream_closed timestamp reason
  | .error message => log_error timestamp message
  | .error_response status body => log_error_response timestamp status body
  | .info message => log_message timestamp message

/-- Status of one concurrent emitter sharing the attempt writer. -/
inductive WriterStat where
  | idle
  | writing (pending : List Char)
  | done

/-- Shared state of concurrently racing emitters: who holds the lock, the
response-file contents, and each emitter's status. -/
structure RaceState where
  holder : Option Nat
  file : List Char
  writer : Nat → WriterStat

/-- Pointwise update of the writer map. -/
def updWriter (w : Nat → WriterStat) (i : Nat) (v : WriterStat) : Nat → WriterStat :=
  fun j => if j = i then v else w j

/-- One step of the concurrent-emitters semantics.  An emitter may acquire
the lock when free, append any nonempty chunk of its remaining bytes to the
file while holding the lock (serialize+write+flush all happen under the
lock in write_json_line), and release the lock once its bytes are
exhausted. -/
inductive RaceStep (n : Nat) (line : Nat → List Char) : RaceState → RaceState → Prop
  | acquire (s : RaceState) (i : Nat) (hi : i < n) (hh : s.holder = none)
      (hw : s.writer i = .idle) :
      RaceStep n line s ⟨some i, s.file, updWriter s.writer i (.writing (line i))⟩
  | write (s : RaceState) (i : Nat) (k : Nat) (p : List Char) (hh : s.holder = some i)
      (hw : s.writer i = .writing p) (hk : 0 < k) :
      RaceStep n line s ⟨s.holder, s.file ++ p.take k, updWriter s.writer i (.writing (p.drop k))⟩
  | release (s : RaceState) (i : Nat) (hh : s.holder = some i)
      (hw : s.writer i = .writing []) :
      RaceStep n line s ⟨none, s.file, updWriter s.writer i .done⟩

/-- Reflexive-transitive closure of the race step relation. -/
inductive RaceReach (n : Nat) (line : Nat → List Char) : RaceState → RaceState → Prop
  | refl (s : RaceState) : RaceReach n line s s
  | tail (s t u : RaceState) : RaceReach n line s t → RaceStep n line t u → RaceReach n line s u

/-- Initial race state over a response file already holding f0. -/
def raceInit (f0 : List Char) : RaceState := ⟨none, f0, fun _ => .idle⟩

/-- Inductive invariant of the race semantics: the file always consists of
the initial contents, the complete lines of the emitters that finished (in
completion order), and — while the lock is held — the prefix of the holder's
line written so far.  Nobody writes without holding the lock. -/
def raceInv (n : Nat) (line : Nat → List Char) (f0 : List Char) (s : RaceState) : Prop :=
  ∃ ds : List Nat,
    ds.Nodup
    ∧ (∀ i ∈ ds, i < n)
    ∧ (∀ i, s.writer i = .done ↔ i ∈ ds)
    ∧ match s.holder with
      | none =>
        s.file = f0 ++ (ds.map line).flatten
        ∧ ∀ i p, s.writer i ≠ .writing p
      | some h =>
        h < n ∧ h ∉ ds
        ∧ (∃ w p, s.writer h = .writing p ∧ line h = w ++ p
            ∧ s.file = f0 ++ (ds.map line).flatten ++ w)
        ∧ ∀ i, i ≠ h → ∀ p, s.writer i ≠ .writing p

/-- Per-variant field contract of a logged line: each field of the tagged
object holds exactly the value passed to the logging call; for
response_started the headers map is in sorted key order and maps every name
to the list of its values in emission order. -/
def eventFieldsSpec (ts : String) : ResponseEvent → Prop
  | .response_started status headers =>
    jsonFind (event_json ts (.response_started status headers)) "type"
        = some (.str "response_started")
    ∧ jsonFind (event_json ts (.response_started status headers)) "timestamp" = some (.str ts)
    ∧ jsonFind (event_json ts (.response_started status headers)) "status" = some (.num status)
    ∧ jsonFind (event_json ts (.response_started status headers)) "headers"
        = some (headersJson headers)
    ∧ List.Chain' (fun a b => strLt a.1 b.1 = true) (headers_map headers)
    ∧ ∀ k, headersLookup k (headers_map headers)
        = if header_values k headers = [] then none else some (header_values k headers)
  | .sse_event event data =>
    jsonFind (event_json ts (.sse_event event data)) "type" = some (.str "sse_event")
    ∧ jsonFind (event_json ts (.sse_event event data)) "timestamp" = some (.str ts)
    ∧ jsonFind (event_json ts (.sse_event event data)) "event" = some (optStrJson event)
    ∧ jsonFind (event_json ts (.sse_event event data)) "data" = some (.str data)
  | .sse_closed reason =>
    jsonFind (event_json ts (.sse_closed reason)) "type" = some (.str "sse_closed")
    ∧ jsonFind (event_json ts (.sse_closed reason)) "timestamp" = some (.str ts)
    ∧ jsonFind (event_json ts (.sse_closed reason)) "reason" = some (.str reason)
  | .error message =>
    jsonFind (event_json ts (.error message)) "type" = some (.str "error")
    ∧ jsonFind (event_json ts (.error message)) "timestamp" = some (.str ts)
    ∧ jsonFind (event_json ts (.error message)) "message" = some (.str message)
  | .error_response status body =>
    jsonFind (event_json ts (.error_response status body)) "type" = some (.str "error_response")
    ∧ jsonFind (event_json ts (.error_response status body)) "timestamp" = some (.str ts)
    ∧ jsonFind (event_json ts (.error_response status body)) "status" = some (.num status)
    ∧ jsonFind (event_json ts (.error_response status body)) "body" = some (.str body)
  | .info message =>
    jsonFind (event_json ts (.info message)) "type" = some (.str "info")
    ∧ jsonFind (event_json ts (.info message)) "timestamp" = some (.str ts)
    ∧ jsonFind (event_json ts (.info message)) "message" = some (.str message)


/-- Concrete one-emitter race used to instantiate the no-interleaving
theorem: the single emitter logs an info message. -/
def raceLine : Nat → List Char := fun _ => serJson (event_json "T" (.info "m")) ++ ['\x0a']

/-- State after the emitter acquired the lock. -/
def raceS1 : RaceState :=
  ⟨some 0, (raceInit []).file, updWriter (raceInit []).writer 0 (.writing (raceLine 0))⟩

/-- State after the emitter wrote its whole line. -/
def raceS2 : RaceState :=
  ⟨raceS1.holder, raceS1.file ++ (raceLine 0).take (raceLine 0).length,
    updWriter raceS1.writer 0 (.writing ((raceLine 0).drop (raceLine 0).length))⟩

/-- State after the emitter released the lock. -/
def raceS3 : RaceState := ⟨none, raceS2.file, updWriter raceS2.writer 0 .done⟩

/-- Filesystem node: directory or regular file with contents. -/
inductive FsNode where
  | dir
  | file (content : String)
deriving DecidableEq

/-- Path as a list of components. -/
abbrev FsPath := List String

/-- Filesystem: association list from path to node; the most recent binding
(first match) is current. -/
abbrev Fs := List (FsPath × FsNode)

/-- Bind a path to a node. -/
def fsSet (fs : Fs) (p : FsPath) (nd : FsNode) : Fs := (p, nd) :: fs

/-- std::fs::create_dir_all, walking the path components: each prefix that is
already a directory is kept, a missing prefix is created, and a prefix
occupied by a regular file fails the call.  Directories created before a
failure remain. -/
def create_dir_all_go (fs : Fs) (cur : FsPath) : List String → Bool × Fs
  | [] => (true, fs)
  | c :: todo =>
    match List.lookup (cur ++ [c]) fs with
    | some .dir => create_dir_all_go fs (cur ++ [c]) todo
    | some (.file _) => (false, fs)
    | none => create_dir_all_go (fsSet fs (cur ++ [c]) .dir) (cur ++ [c]) todo

/-- std::fs::create_dir_all from the root. -/
def create_dir_all (fs : Fs) (p : FsPath) : Bool × Fs := create_dir_all_go fs [] p

/-- RequestLogger::from_env: an absent CODEX_REQUEST_LOG_DIR configuration
yields no router and leaves the filesystem untouched; base/conversation-id
is created with create_dir_all; a creation failure warns and yields no
router; on success the router is scoped to the conversation directory. -/
def from_env (base_dir : Option FsPath) (conversation_id : String) (fs : Fs) :
    Option FsPath × Fs :=
  match base_dir with
  | none => (none, fs)
  | some base =>
    match create_dir_all fs (base ++ [conversation_id]) with
    | (true, fs1) => (some (base ++ [conversation_id]), fs1)
    | (false, fs1) => (none, fs1)

/-- Zero-pad a digit sequence on the left to at least three characters. -/
def pad3 (s : List Char) : List Char := List.replicate (3 - s.length) '0' ++ s

/-- format!("attempt-NNN") with the attempt number zero-padded to at least
three digits (the :03 format specifier). -/
def attempt_id (attempt : Nat) : String :=
  "attempt-" ++ String.mk (pad3 (natChars attempt))

/-- Request-file name for an attempt. -/
def request_file_name (attempt : Nat) : String := attempt_id attempt ++ "-request.json"

/-- Response-file name for an attempt. -/
def response_file_name (attempt : Nat) : String := attempt_id attempt ++ "-response.jsonl"

/-- OpenOptions create(true).write(true).truncate(true) with owner-only mode:
succeeds with an empty file when the path holds a regular file or is free
with its parent directory present; fails when the path is a directory or the
parent is missing. -/
def open_trunc (fs : Fs) (p : FsPath) : Option Fs :=
  match List.lookup p fs with
  | some (.file _) => some (fsSet fs p (.file ""))
  | some .dir => none
  | none =>
    match List.lookup p.dropLast fs with
    | some .dir => some (fsSet fs p (.file ""))
    | _ => none

/-- serde_json PrettyFormatter two-space indentation at a depth. -/
def indentChars (depth : Nat) : List Char := List.replicate (2 * depth) ' '

mutual

/-- Pretty serialization of a JSON value: the bytes serde_json's
to_writer_pretty emits (two-space indent, ": " after keys, elements one per
line). -/
def serPretty : Nat → Json → List Char
  | _, .null => litChars "null"
  | _, .bool true => litChars "true"
  | _, .bool false => litChars "false"
  | _, .num n => natChars n
  | _, .str s => '"' :: (escList s.data ++ ['"'])
  | _, .arr [] => ['[', ']']
  | depth, .arr (x :: t) =>
    '[' :: '\x0a' :: (indentChars (depth + 1) ++ serPretty (depth + 1) x
      ++ serPrettyArrTail (depth + 1) t ++ '\x0a' :: (indentChars depth ++ [']']))
  | _, .obj [] => ['\x7b', '\x7d']
  | depth, .obj (kv :: t) =>
    '\x7b' :: '\x0a' :: (indentChars (depth + 1) ++ serPrettyField (depth + 1) kv
      ++ serPrettyObjTail (depth + 1) t ++ '\x0a' :: (indentChars depth ++ ['\x7d']))

/-- One pretty-printed object field: quoted key, colon, space, value. -/
def serPrettyField : Nat → String × Json → List Char
  | depth, (k, v) => '"' :: (escList k.data ++ ['"', ':', ' '] ++ serPretty depth v)

/-- Remaining pretty-printed array elements. -/
def serPrettyArrTail : Nat → List Json → List Char
  | _, [] => []
  | depth, x :: t =>
    ',' :: '\x0a' :: (indentChars depth ++ serPretty depth x ++ serPrettyArrTail depth t)

/-- Remaining pretty-printed object fields. -/
def serPrettyObjTail : Nat → List (String × Json) → List Char
  | _, [] => []
  | depth, kv :: t =>
    ',' :: '\x0a' :: (indentChars depth ++ serPrettyField depth kv ++ serPrettyObjTail depth t)

end

/-- The request record json! object of write_request_file. -/
def request_record (timestamp : String) (attempt : Nat) (url : String) (payload : Json) : Json :=
  jsonObj [("timestamp", .str timestamp), ("attempt", .num attempt),
           ("url", .str url), ("payload", payload)]

/-- Bytes written to the request file: serde_json::to_writer_pretty of the
record followed by one newline. -/
def request_file_content (timestamp : String) (attempt : Nat) (url : String)
    (payload : Json) : String :=
  String.mk (serPretty 0 (request_record timestamp attempt url payload) ++ ['\x0a'])

/-- write_request_file: open/truncate the file, then serialize the record and
write the trailing newline.  io_fail injects an I/O failure after the given
number of content bytes reached the file (serde writes through to the file,
so a failed call can leave a partial record). -/
def write_request_file (io_fail : Option Nat) (fs : Fs) (path : FsPath)
    (timestamp : String) (attempt : Nat) (url : String) (payload : Json) : Bool × Fs :=
  match open_trunc fs path with
  | none => (false, fs)
  | some fs1 =>
    match io_fail with
    | some k =>
      (false, fsSet fs1 path (.file (String.mk
        ((request_file_content timestamp attempt url payload).data.take k))))
    | none => (true, fsSet fs1 path (.file (request_file_content timestamp attempt url payload)))

/-- create_response_file: create-or-truncate with owner-only permissions. -/
def create_response_file (fs : Fs) (path : FsPath) : Option Fs := open_trunc fs path

/-- RequestLogger::log_request: compute the attempt's two paths, write the
request record (on failure warn and yield no attempt writer), then create
the response file (on failure warn and yield no attempt writer, keeping the
written request file).  On success the attempt writer owns the freshly
truncated response file, represented here by its path. -/
def log_request (conversation_dir : FsPath) (io_fail : Option Nat) (timestamp : String)
    (attempt : Nat) (url : String) (payload : Json) (fs : Fs) : Option FsPath × Fs :=
  match write_request_file io_fail fs (conversation_dir ++ [request_file_name attempt])
      timestamp attempt url payload with
  | (false, fs1) => (none, fs1)
  | (true, fs1) =>
    match create_response_file fs1 (conversation_dir ++ [response_file_name attempt]) with
    | some fs2 => (some (conversation_dir ++ [response_file_name attempt]), fs2)
    | none => (none, fs1)



theorem decDigit_isDigit (d : Nat) : isDigitChar (decDigit d) = true := by
  unfold decDigit; split <;> decide

theorem digitVal_decDigit (d : Nat) (h : d < 10) : digitVal (decDigit d) = d := by
  interval_cases d <;> decide

theorem hexVal_hexDigit (d : Nat) (h : d < 16) : hexVal (hexDigit d) = d := by
  interval_cases d <;> decide

theorem isHex_hexDigit (d : Nat) (h : d < 16) : isHexChar (hexDigit d) = true := by
  interval_cases d <;> decide

theorem natCharsRevAux_digits (fuel : Nat) :
    ∀ n, ∀ c ∈ natCharsRevAux fuel n, isDigitChar c = true := by
  induction fuel with
  | zero => intro n c hc; simp [natCharsRevAux] at hc
  | succ f ih =>
    intro n c hc
    unfold natCharsRevAux at hc
    split at hc
    · simp at hc; subst hc; exact decDigit_isDigit n
    · simp at hc
      rcases hc with hc | hc
      · subst hc; exact decDigit_isDigit (n % 10)
      · exact ih (n / 10) c hc

theorem natChars_digits (n : Nat) : ∀ c ∈ natChars n, isDigitChar c = true := by
  intro c hc
  unfold natChars at hc
  exact natCharsRevAux_digits (n + 1) n c (List.mem_reverse.mp hc)

theorem natChars_ne_nil (n : Nat) : natChars n ≠ [] := by
  unfold natChars natCharsRevAux
  split <;> simp

theorem natCharsRevAux_val (fuel : Nat) :
    ∀ n a, n < fuel →
      List.foldl (fun a c => 10 * a + digitVal c) a (natCharsRevAux fuel n).reverse
        = a * 10 ^ (natCharsRevAux fuel n).length + n := by
  induction fuel with
  | zero => intro n a hn; omega
  | succ f ih =>
    intro n a hn
    unfold natCharsRevAux
    split
    · rename_i h10
      simp [digitVal_decDigit n h10]
      try omega
      try ring
    · rename_i h10
      push_neg at h10
      have hdiv : n / 10 < f := by
        have h1 : n / 10 < n := Nat.div_lt_self (by omega) (by omega)
        omega
      simp only [List.reverse_cons, List.foldl_append, ih (n / 10) a hdiv,
        List.length_cons, List.foldl_cons, List.foldl_nil]
      rw [digitVal_decDigit (n % 10) (Nat.mod_lt _ (by omega))]
      rw [pow_succ, ← mul_assoc]
      have hdm := Nat.div_add_mod n 10
      generalize a * 10 ^ (natCharsRevAux f (n / 10)).length = X
      omega

theorem natChars_val (n : Nat) :
    List.foldl (fun a c => 10 * a + digitVal c) 0 (natChars n) = n := by
  have := natCharsRevAux_val (n + 1) n 0 (by omega)
  simpa [natChars] using this

theorem takeWhile_append_all {α : Type} {p : α → Bool} {l l' : List α}
    (h : ∀ a ∈ l, p a = true) :
    (l ++ l').takeWhile p = l ++ l'.takeWhile p := by
  induction l with
  | nil => simp
  | cons a t ih =>
    simp only [List.cons_append, List.takeWhile_cons, h a (by simp)]
    simp only [ih (fun x hx => h x (by simp [hx])), if_true]

theorem dropWhile_append_all {α : Type} {p : α → Bool} {l l' : List α}
    (h : ∀ a ∈ l, p a = true) :
    (l ++ l').dropWhile p = l'.dropWhile p := by
  induction l with
  | nil => simp
  | cons a t ih =>
    simp only [List.cons_append, List.dropWhile_cons, h a (by simp)]
    simp only [ih (fun x hx => h x (by simp [hx])), if_true]

theorem parseNat_natChars (n : Nat) (rest : List Char) (h : noDigitHead rest) :
    parseNat (natChars n ++ rest) = some (n, rest) := by
  have htw : rest.takeWhile isDigitChar = [] := by
    cases rest with
    | nil => simp
    | cons c t => simp only [noDigitHead] at h; simp [List.takeWhile_cons, h]
  have hdw : rest.dropWhile isDigitChar = rest := by
    cases rest with
    | nil => simp
    | cons c t => simp only [noDigitHead] at h; simp [List.dropWhile_cons, h]
  unfold parseNat
  rw [takeWhile_append_all (natChars_digits n), dropWhile_append_all (natChars_digits n),
    htw, hdw, List.append_nil]
  have hne : (natChars n).isEmpty = false := by
    rcases List.exists_cons_of_ne_nil (natChars_ne_nil n) with ⟨c, cs, hc⟩
    simp [hc]
  simp only [hne, if_neg, Bool.false_eq_true, not_false_eq_true, natChars_val]


theorem psb_default (c : Char) (r : List Char) (h1 : c ≠ '"') (h2 : c ≠ '\\') :
    parseStringBody (c :: r) = (parseStringBody r).map fun p => (c :: p.1, p.2) := by
  simp [parseStringBody, h1, h2]

theorem string_mk_data (s : String) : String.mk s.data = s := by cases s; rfl

theorem parseStringBody_escList (cs : List Char) :
    ∀ rest, parseStringBody (escList cs ++ '"' :: rest) = some (cs, rest) := by
  induction cs with
  | nil => intro rest; simp [escList, parseStringBody]
  | cons c t ih =>
    intro rest
    show parseStringBody ((escChar c ++ escList t) ++ '"' :: rest) = _
    rw [List.append_assoc]
    unfold escChar
    split_ifs with h1 h2 h3 h4 h5 h6 h7 h8
    · subst h1; simp [parseStringBody, escDecode, ih rest]
    · subst h2; simp [parseStringBody, escDecode, ih rest]
    · subst h3; simp [parseStringBody, escDecode, ih rest]
    · subst h4; simp [parseStringBody, escDecode, ih rest]
    · subst h5; simp [parseStringBody, escDecode, ih rest]
    · subst h6; simp [parseStringBody, escDecode, ih rest]
    · subst h7; simp [parseStringBody, escDecode, ih rest]
    · have hhi : c.toNat / 16 < 16 := by omega
      have hlo : c.toNat % 16 < 16 := by omega
      have h0 : hexVal '0' = 0 := by decide
      have hval : hexQuad '0' '0' (hexDigit (c.toNat / 16)) (hexDigit (c.toNat % 16))
          = c.toNat := by
        rw [hexQuad, hexVal_hexDigit _ hhi, hexVal_hexDigit _ hlo, h0]
        omega
      simp only [List.cons_append, List.nil_append, parseStringBody, isHex4,
        isHex_hexDigit _ hhi, isHex_hexDigit _ hlo,
        (by decide : isHexChar '0' = true)]
      simp [hval, Char.ofNat_toNat, ih rest]
    · simp only [List.cons_append, List.nil_append]
      rw [psb_default c _ h1 h2, ih rest]
      rfl

theorem isDigit_ne_rbracket {c : Char} (h : isDigitChar c = true) : c ≠ ']' := by
  intro he; subst he; simp [isDigitChar] at h

theorem serJson_head (j : Json) : ∃ c cs, serJson j = c :: cs ∧ c ≠ ']' := by
  cases j with
  | null => exact ⟨'n', _, rfl, by decide⟩
  | bool b =>
    cases b with
    | false => exact ⟨'f', _, rfl, by decide⟩
    | true => exact ⟨'t', _, rfl, by decide⟩
  | num n =>
    rcases List.exists_cons_of_ne_nil (natChars_ne_nil n) with ⟨c, cs, hc⟩
    refine ⟨c, cs, by simpa [serJson] using hc, ?_⟩
    exact isDigit_ne_rbracket (natChars_digits n c (by simp [hc]))
  | str s => exact ⟨'"', _, rfl, by decide⟩
  | arr l =>
    cases l with
    | nil => exact ⟨'[', _, rfl, by decide⟩
    | cons x t => exact ⟨'[', _, rfl, by decide⟩
  | obj l =>
    cases l with
    | nil => exact ⟨'\x7b', _, rfl, by decide⟩
    | cons kv t => exact ⟨'\x7b', _, rfl, by decide⟩

theorem fuelOf_pos (j : Json) : 1 ≤ fuelOf j := by
  cases j <;> simp only [fuelOf] <;> omega

theorem noDigitHead_serArrTail (t : List Json) (r : List Char) :
    noDigitHead (serArrTail t ++ ']' :: r) := by
  cases t <;> simp [serArrTail, noDigitHead, isDigitChar]

theorem noDigitHead_serObjTail (t : List (String × Json)) (r : List Char) :
    noDigitHead (serObjTail t ++ '\x7d' :: r) := by
  cases t <;> simp [serObjTail, noDigitHead, isDigitChar]

theorem parse_ser (f : Nat) :
    (∀ j rest, fuelOf j ≤ f → noDigitHead rest →
       parseVal f (serJson j ++ rest) = some (j, rest)) ∧
    (∀ x t rest, 1 + fuelOf x + fuelElemsOf t ≤ f →
       parseElems f (serJson x ++ (serArrTail t ++ ']' :: rest)) = some (x :: t, rest)) ∧
    (∀ k v t rest, 1 + fuelOf v + fuelFieldsOf t ≤ f →
       parseFields f (serObjField (k, v) ++ (serObjTail t ++ '\x7d' :: rest))
         = some ((k, v) :: t, rest)) := by
  induction f with
  | zero =>
    refine ⟨fun j rest hf _ => absurd hf (by have := fuelOf_pos j; omega),
      fun x t rest hf => absurd hf (by have := fuelOf_pos x; omega),
      fun k v t rest hf => absurd hf (by have := fuelOf_pos v; omega)⟩
  | succ f ih =>
    obtain ⟨ihV, ihE, ihF⟩ := ih
    refine ⟨?_, ?_, ?_⟩
    · intro j rest hf hrest
      cases j with
      | null =>
        rw [show serJson Json.null = 'n' :: 'u' :: 'l' :: 'l' :: [] from rfl]
        simp [parseVal, isDigitChar, parseValKw]
      | bool b =>
        cases b with
        | true =>
          rw [show serJson (Json.bool true) = 't' :: 'r' :: 'u' :: 'e' :: [] from rfl]
          simp [parseVal, isDigitChar, parseValKw]
        | false =>
          rw [show serJson (Json.bool false) = 'f' :: 'a' :: 'l' :: 's' :: 'e' :: [] from rfl]
          simp [parseVal, isDigitChar, parseValKw]
      | num n =>
        rcases List.exists_cons_of_ne_nil (natChars_ne_nil n) with ⟨c, cs, hc⟩
        have hd : isDigitChar c = true := natChars_digits n c (by simp [hc])
        have hrw : serJson (.num n) ++ rest = c :: (cs ++ rest) := by simp [serJson, hc]
        rw [hrw, parseVal, if_pos hd, ← List.cons_append, ← hc]
        show (parseNat (natChars n ++ rest)).map _ = _
        rw [parseNat_natChars n rest hrest]
        rfl
      | str s =>
        simp only [serJson, List.cons_append, List.append_assoc, List.singleton_append,
          List.nil_append]
        rw [parseVal, if_neg (by decide)]
        simp only [parseValKw, parseStringBody_escList s.data rest, Option.map_some]
        simp [string_mk_data]
      | arr l =>
        cases l with
        | nil =>
          simp only [serJson, List.cons_append]
          rw [parseVal, if_neg (by decide)]
          have hf2 : (2 : Nat) ≤ f + 1 := le_trans (by simp [fuelOf, fuelElemsOf]) hf
          obtain ⟨f', rfl⟩ : ∃ f', f = f' + 1 := ⟨f - 1, by omega⟩
          simp [parseValKw, parseElems]
        | cons x t =>
          simp only [serJson, List.cons_append, List.append_assoc, List.cons_append,
            List.nil_append, List.singleton_append]
          rw [parseVal, if_neg (by decide)]
          have hfe : 1 + fuelOf x + fuelElemsOf t ≤ f := by
            simp only [fuelOf, fuelElemsOf] at hf; omega
          simp only [parseValKw]
          rw [ihE x t rest hfe]
          rfl
      | obj l =>
        cases l with
        | nil =>
          simp only [serJson, List.cons_append]
          rw [parseVal, if_neg (by decide)]
          have hf2 : (2 : Nat) ≤ f + 1 := le_trans (by simp [fuelOf, fuelFieldsOf]) hf
          obtain ⟨f', rfl⟩ : ∃ f', f = f' + 1 := ⟨f - 1, by omega⟩
          simp [parseValKw, parseFields]
        | cons kv t =>
          obtain ⟨k, v⟩ := kv
          simp only [serJson, List.cons_append, List.append_assoc, List.cons_append,
            List.nil_append, List.singleton_append]
          rw [parseVal, if_neg (by decide)]
          have hfe : 1 + fuelOf v + fuelFieldsOf t ≤ f := by
            simp only [fuelOf, fuelFieldsOf] at hf; omega
          simp only [parseValKw]
          rw [ihF k v t rest hfe]
          rfl
    · intro x t rest hf
      rcases serJson_head x with ⟨c, cs, hc, hne⟩
      have hin : serJson x ++ (serArrTail t ++ ']' :: rest)
          = c :: (cs ++ (serArrTail t ++ ']' :: rest)) := by simp [hc]
      rw [hin, parseElems, if_neg hne, ← List.cons_append, ← hc]
      have hx : fuelOf x ≤ f := by omega
      rw [ihV x (serArrTail t ++ ']' :: rest) hx (noDigitHead_serArrTail t rest)]
      cases t with
      | nil => simp [serArrTail, parseElemsTail]
      | cons y t2 =>
        simp only [serArrTail, List.cons_append, parseElemsTail]
        have hfe : 1 + fuelOf y + fuelElemsOf t2 ≤ f := by
          have := fuelOf_pos x
          simp only [fuelElemsOf] at hf; omega
        rw [List.append_assoc, ihE y t2 rest hfe]
        rfl
    · intro k v t rest hf
      have hin : serObjField (k, v) ++ (serObjTail t ++ '\x7d' :: rest)
          = '"' :: (escList k.data ++ '"' :: (':' :: (serJson v ++ (serObjTail t ++ '\x7d' :: rest)))) := by
        simp [serObjField]
      rw [hin, parseFields, if_neg (by decide), if_pos rfl,
        parseStringBody_escList k.data (':' :: (serJson v ++ (serObjTail t ++ '\x7d' :: rest)))]
      simp only [parseFieldsKey, string_mk_data]
      have hv : fuelOf v ≤ f := by omega
      rw [ihV v (serObjTail t ++ '\x7d' :: rest) hv (noDigitHead_serObjTail t rest)]
      cases t with
      | nil => simp [serObjTail, parseFieldsVal]
      | cons kv2 t2 =>
        obtain ⟨k2, v2⟩ := kv2
        simp only [serObjTail, List.cons_append, parseFieldsVal]
        have hfe : 1 + fuelOf v2 + fuelFieldsOf t2 ≤ f := by
          have := fuelOf_pos v
          simp only [fuelFieldsOf] at hf; omega
        rw [List.append_assoc, ihF k2 v2 t2 rest hfe]
        rfl


mutual

theorem fuelOf_le : ∀ j : Json, fuelOf j ≤ 2 * (serJson j).length
  | .null => by decide
  | .bool true => by decide
  | .bool false => by decide
  | .num n => by
    have h := natChars_ne_nil n
    have h1 : 1 ≤ (natChars n).length := List.length_pos.mpr h
    simp only [fuelOf, serJson]
    omega
  | .str s => by simp [fuelOf, serJson]; omega
  | .arr [] => by simp [fuelOf, fuelElemsOf, serJson]
  | .arr (x :: t) => by
    have h1 := fuelOf_le x
    have h2 := fuelElemsOf_le t
    simp only [fuelOf, fuelElemsOf, serJson, List.length_cons, List.length_append]
    omega
  | .obj [] => by simp [fuelOf, fuelFieldsOf, serJson]
  | .obj (kv :: t) => by
    have h1 := fuelOf_le kv.2
    have h2 := fuelFieldsOf_le t
    have h3 : (serObjField kv).length = 3 + (escList kv.1.data).length + (serJson kv.2).length := by
      obtain ⟨k, v⟩ := kv
      simp [serObjField]
      omega
    simp only [fuelOf, fuelFieldsOf, serJson, List.length_cons, List.length_append, h3]
    omega

theorem fuelElemsOf_le : ∀ l : List Json, fuelElemsOf l ≤ 2 * (serArrTail l).length
  | [] => by simp [fuelElemsOf, serArrTail]
  | x :: t => by
    have h1 := fuelOf_le x
    have h2 := fuelElemsOf_le t
    simp only [fuelElemsOf, serArrTail, List.length_cons, List.length_append]
    omega

theorem fuelFieldsOf_le : ∀ l : List (String × Json), fuelFieldsOf l ≤ 2 * (serObjTail l).length
  | [] => by simp [fuelFieldsOf, serObjTail]
  | kv :: t => by
    have h1 := fuelOf_le kv.2
    have h2 := fuelFieldsOf_le t
    have h3 : (serObjField kv).length = 3 + (escList kv.1.data).length + (serJson kv.2).length := by
      obtain ⟨k, v⟩ := kv
      simp [serObjField]
      omega
    simp only [fuelFieldsOf, serObjTail, List.length_cons, List.length_append, h3]
    omega

end

theorem parseJsonLine_ser (j : Json) : parseJsonLine (serJson j ++ ['\x0a']) = some j := by
  unfold parseJsonLine
  have hfl := fuelOf_le j
  have hf : fuelOf j ≤ 2 * (serJson j ++ ['\x0a']).length := by
    simp only [List.length_append, List.length_cons, List.length_nil]
    omega
  rw [(parse_ser _).1 j ['\x0a'] hf (by simp [noDigitHead, isDigitChar])]
  rfl


theorem charsLt_irrefl (l : List Char) : charsLt l l = false := by
  induction l with
  | nil => rfl
  | cons a t ih => simp [charsLt, ih]

theorem charsLt_trans {a b c : List Char} (h1 : charsLt a b = true) (h2 : charsLt b c = true) :
    charsLt a c = true := by
  induction a generalizing b c with
  | nil =>
    cases b with
    | nil => simp [charsLt] at h1
    | cons x xs =>
      cases c with
      | nil => simp [charsLt] at h2
      | cons y ys => simp [charsLt]
  | cons x xs ih =>
    cases b with
    | nil => simp [charsLt] at h1
    | cons y ys =>
      cases c with
      | nil => simp [charsLt] at h2
      | cons z zs =>
        simp only [charsLt] at h1 h2 ⊢
        rcases lt_trichotomy x y with hxy | hxy | hxy
        · rcases lt_trichotomy y z with hyz | hyz | hyz
          · simp [lt_trans hxy hyz]
          · subst hyz; simp [hxy]
          · rcases lt_trichotomy x z with hxz | hxz | hxz
            · simp [hxz]
            · subst hxz
              simp [hxy, asymm hxy] at h2
            · simp [hyz, asymm hyz] at h2
        · subst hxy
          rcases lt_trichotomy x z with hxz | hxz | hxz
          · simp [hxz]
          · subst hxz
            simp [lt_irrefl] at h1 h2 ⊢
            exact ih h1 h2
          · simp [hxz, asymm hxz] at h2
        · simp [hxy, asymm hxy] at h1

theorem charsLt_total {a b : List Char} :
    charsLt a b = true ∨ a = b ∨ charsLt b a = true := by
  induction a generalizing b with
  | nil =>
    cases b with
    | nil => exact Or.inr (Or.inl rfl)
    | cons y ys => exact Or.inl (by simp [charsLt])
  | cons x xs ih =>
    cases b with
    | nil => exact Or.inr (Or.inr (by simp [charsLt]))
    | cons y ys =>
      rcases lt_trichotomy x y with hxy | hxy | hxy
      · exact Or.inl (by simp [charsLt, hxy])
      · subst hxy
        rcases ih (b := ys) with h | h | h
        · exact Or.inl (by simp [charsLt, lt_irrefl, h])
        · exact Or.inr (Or.inl (by rw [h]))
        · exact Or.inr (Or.inr (by simp [charsLt, lt_irrefl, h]))
      · exact Or.inr (Or.inr (by simp [charsLt, hxy, asymm hxy]))

theorem strLt_irrefl (a : String) : strLt a a = false := charsLt_irrefl a.data

theorem strLt_trans {a b c : String} (h1 : strLt a b = true) (h2 : strLt b c = true) :
    strLt a c = true := charsLt_trans h1 h2

theorem strLt_total {a b : String} : strLt a b = true ∨ a = b ∨ strLt b a = true := by
  rcases charsLt_total (a := a.data) (b := b.data) with h | h | h
  · exact Or.inl h
  · refine Or.inr (Or.inl ?_)
    cases a; cases b; exact congrArg String.mk h
  · exact Or.inr (Or.inr h)

theorem strLt_ne {a b : String} (h : strLt a b = true) : a ≠ b := by
  intro he; subst he; rw [strLt_irrefl] at h; exact Bool.false_ne_true h

theorem headersLookup_none_of_lt {k' : String} {vs : List String}
    {t : List (String × List String)} {nk : String}
    (hs : List.Chain' (fun a b => strLt a.1 b.1 = true) ((k', vs) :: t))
    (hlt : strLt nk k' = true) :
    headersLookup nk ((k', vs) :: t) = none := by
  induction t generalizing k' vs with
  | nil =>
    simp [headersLookup, Ne.symm (strLt_ne hlt) , (strLt_ne hlt)]
  | cons kv2 t2 ih =>
    have hchain := hs
    rw [List.chain'_cons] at hchain
    obtain ⟨h12, h2⟩ := hchain
    simp only [headersLookup, if_neg (strLt_ne hlt)]
    obtain ⟨k2, vs2⟩ := kv2
    exact ih h2 (strLt_trans hlt h12)

theorem headersInsert_sorted {m : List (String × List String)} {k : String} {v : String}
    (hm : List.Chain' (fun a b => strLt a.1 b.1 = true) m) :
    List.Chain' (fun a b => strLt a.1 b.1 = true) (headersInsert m k v) := by
  induction m with
  | nil => simp [headersInsert]
  | cons kv t ih =>
    obtain ⟨k', vs⟩ := kv
    rw [List.chain'_cons'] at hm
    obtain ⟨hhead, htail⟩ := hm
    by_cases h1 : strLt k k' = true
    · rw [headersInsert, if_pos h1, List.chain'_cons]
      exact ⟨h1, by rw [List.chain'_cons']; exact ⟨hhead, htail⟩⟩
    · by_cases h2 : k = k'
      · rw [headersInsert, if_neg h1, if_pos h2, List.chain'_cons']
        exact ⟨hhead, htail⟩
      · rw [headersInsert, if_neg h1, if_neg h2]
        have hk'k : strLt k' k = true := by
          rcases strLt_total (a := k) (b := k') with h | h | h
          · exact absurd h h1
          · exact absurd h h2
          · exact h
        rw [List.chain'_cons']
        refine ⟨?_, ih htail⟩
        intro y hy
        cases t with
        | nil =>
          simp only [headersInsert, List.head?] at hy
          simp at hy
          subst hy
          exact hk'k
        | cons kv2 t2 =>
          obtain ⟨k2, vs2⟩ := kv2
          have hk'2 : strLt k' k2 = true := hhead (k2, vs2) rfl
          simp only [headersInsert] at hy
          split_ifs at hy with g1 g2
          · simp at hy; subst hy; exact hk'k
          · simp at hy; subst hy; exact hk'2
          · simp at hy; subst hy; exact hk'2

theorem headersLookup_insert {m : List (String × List String)} {k n v : String}
    (hm : List.Chain' (fun a b => strLt a.1 b.1 = true) m) :
    headersLookup k (headersInsert m n v)
      = if k = n then some ((headersLookup n m).getD [] ++ [v]) else headersLookup k m := by
  induction m with
  | nil =>
    simp only [headersInsert, headersLookup]
    split_ifs with h
    · rfl
    · rfl
  | cons kv t ih =>
    obtain ⟨k', vs⟩ := kv
    by_cases h1 : strLt n k' = true
    · rw [headersInsert, if_pos h1, headersLookup_none_of_lt hm h1, headersLookup]
      split_ifs with h
      · rfl
      · rfl
    · by_cases h2 : n = k'
      · subst h2
        by_cases h : k = n
        · subst h
          simp [headersInsert, headersLookup, h1]
        · simp [headersInsert, headersLookup, h1, h]
      · rw [headersInsert, if_neg h1, if_neg h2]
        rw [List.chain'_cons'] at hm
        obtain ⟨hhead, htail⟩ := hm
        simp only [headersLookup, ih htail]
        split_ifs <;> simp_all

theorem headers_map_go {hs : List (String × Option String)} :
    ∀ {m : List (String × List String)},
      List.Chain' (fun a b => strLt a.1 b.1 = true) m → ∀ k,
      headersLookup k (hs.foldl (fun m h => headersInsert m h.1 (h.2.getD "")) m)
        = if header_values k hs = [] then headersLookup k m
          else some ((headersLookup k m).getD [] ++ header_values k hs) := by
  induction hs with
  | nil => intro m hm k; simp [header_values]
  | cons p t ih =>
    intro m hm k
    obtain ⟨pk, pv⟩ := p
    simp only [List.foldl_cons]
    rw [ih (headersInsert_sorted hm) k, headersLookup_insert hm]
    by_cases hk : k = pk
    · subst hk
      have hv : header_values k ((k, pv) :: t) = pv.getD "" :: header_values k t := by
        simp [header_values, List.filter_cons]
      rw [hv]
      by_cases ht : header_values k t = []
      · simp [ht]
      · rw [if_pos rfl, if_neg ht, if_neg (List.cons_ne_nil _ _)]
        simp [List.append_assoc]
    · have hpk : (pk == k) = false := beq_eq_false_iff_ne.mpr fun h => hk h.symm
      have hv : header_values k ((pk, pv) :: t) = header_values k t := by
        simp [header_values, List.filter_cons, hpk]
      rw [hv, if_neg hk]

theorem headers_map_sorted_go (hs : List (String × Option String)) :
    ∀ m, List.Chain' (fun a b => strLt a.1 b.1 = true) m →
      List.Chain' (fun a b => strLt a.1 b.1 = true)
        (hs.foldl (fun m h => headersInsert m h.1 (h.2.getD "")) m) := by
  induction hs with
  | nil => intro m hm; simpa using hm
  | cons p t ih => intro m hm; exact ih _ (headersInsert_sorted hm)

theorem headers_map_sorted (headers : List (String × Option String)) :
    List.Chain' (fun a b => strLt a.1 b.1 = true) (headers_map headers) :=
  headers_map_sorted_go headers [] (by simp)

theorem headers_map_lookup (headers : List (String × Option String)) (k : String) :
    headersLookup k (headers_map headers)
      = if header_values k headers = [] then none else some (header_values k headers) := by
  unfold headers_map
  rw [headers_map_go (by simp) k]
  simp [headersLookup]

/-- C2: every written response line, when parsed back, reproduces exactly the
tagged object that was emitted, whose fields hold exactly the values passed
to the emit call (status, header name/value pairs, event name and data,
reason, message, body), with header names in sorted order and each header
name mapped to the list of all its values in emission order. -/
theorem response_line_roundtrip (ts : String) (e : ResponseEvent) :
    parseJsonLine (serJson (event_json ts e) ++ ['\x0a']) = some (event_json ts e)
    ∧ eventFieldsSpec ts e := by
  refine ⟨parseJsonLine_ser (event_json ts e), ?_⟩
  cases e with
  | response_started status headers =>
    exact ⟨rfl, rfl, rfl, rfl, headers_map_sorted headers, headers_map_lookup headers⟩
  | sse_event event data => exact ⟨rfl, rfl, rfl, rfl⟩
  | sse_closed reason => exact ⟨rfl, rfl, rfl⟩
  | error message => exact ⟨rfl, rfl, rfl⟩
  | error_response status body => exact ⟨rfl, rfl, rfl, rfl⟩
  | info message => exact ⟨rfl, rfl, rfl⟩

/-- C9: a header value on which HeaderValue::to_str fails (modelled as none)
is recorded as the empty string — the headers map is exactly the one obtained
after replacing every unrepresentable value by the empty string — and every
other header is recorded unchanged: each name maps to the list of its
values (unrepresentable ones as the empty string) in emission order. -/
theorem invalid_header_value_as_empty (headers : List (String × Option String)) (k : String) :
    headers_map headers = headers_map (headers.map fun p => (p.1, some (p.2.getD "")))
    ∧ headersLookup k (headers_map headers)
        = if header_values k headers = [] then none else some (header_values k headers) := by
  constructor
  · rw [headers_map, headers_map, List.foldl_map]
    rfl
  · exact headers_map_lookup headers k

/-- C1: a successful emit call (any of the six logging methods, dispatched by
run_event_op) appends to the response file exactly the compact serialization
of the event's tagged object followed by a single newline, and flushes the
sink (no bytes stay buffered) before the lock is released. -/
theorem emit_appends_exact_line (ts : String) (e : ResponseEvent) (st : LogState)
    (hbuf : st.sink.buffer = []) :
    (run_event_op ts e .ok st).sink.durable
        = st.sink.durable ++ serJson (event_json ts e) ++ ['\x0a']
    ∧ (run_event_op ts e .ok st).sink.buffer = [] := by
  obtain ⟨p, d, b⟩ := st
  simp only at hbuf
  subst hbuf
  cases e <;> cases p <;>
    simp [run_event_op, log_response_start, log_stream_event, log_stream_closed, log_error,
      log_error_response, log_message, write_json_line, lock_file, List.append_assoc]

theorem emit_appends_exact_line_witness :
    (run_event_op "T" (.info "m") .ok ⟨false, [], []⟩).sink.durable
        = [] ++ serJson (event_json "T" (.info "m")) ++ ['\x0a']
    ∧ (run_event_op "T" (.info "m") .ok ⟨false, [], []⟩).sink.buffer = [] :=
  emit_appends_exact_line "T" (.info "m") ⟨false, [], []⟩ rfl

/-- C4: when any step of an emit call fails (serialization, newline write, or
flush), the call still returns a state — nothing reaches the caller as an
error — and the durable file is unchanged by the failed call; a subsequent
successful emit on the same writer still appends its complete line. -/
theorem emit_failure_swallowed (v1 v2 : Json) (o : WriteOutcome) (st : LogState) :
    (o ≠ .ok → (write_json_line v1 o st).sink.durable = st.sink.durable)
    ∧ (write_json_line v2 .ok (write_json_line v1 o st)).sink.durable
        = ((write_json_line v1 o st).sink.durable ++ (write_json_line v1 o st).sink.buffer)
            ++ serJson v2 ++ ['\x0a'] := by
  obtain ⟨p, d, b⟩ := st
  constructor
  · intro ho
    cases o <;> cases p <;> first
      | exact absurd rfl ho
      | simp [write_json_line, lock_file]
  · cases o <;> cases p <;> simp [write_json_line, lock_file, List.append_assoc]

theorem emit_failure_swallowed_witness :
    (write_json_line .null (.serFail 1) ⟨false, ['x'], []⟩).sink.durable = ['x']
    ∧ (write_json_line .null .ok
          (write_json_line .null (.serFail 1) ⟨false, ['x'], []⟩)).sink.durable
        = ((write_json_line .null (.serFail 1) ⟨false, ['x'], []⟩).sink.durable
            ++ (write_json_line .null (.serFail 1) ⟨false, ['x'], []⟩).sink.buffer)
          ++ serJson .null ++ ['\x0a'] :=
  ⟨(emit_failure_swallowed .null .null (.serFail 1) ⟨false, ['x'], []⟩).1 (by decide),
   (emit_failure_swallowed .null .null (.serFail 1) ⟨false, ['x'], []⟩).2⟩

/-- C8: an emit call made while the lock is poisoned proceeds exactly as with
a healthy lock: lock() answers Err(poisoned), the code recovers the guard via
into_inner(), and the best-effort write happens — no panic, refusal, or
deadlock; in particular a successful emit under a poisoned lock appends its
full line. -/
theorem poisoned_lock_recovered (v : Json) (o : WriteOutcome) (sink : FileSink) :
    (write_json_line v o ⟨true, sink⟩).sink = (write_json_line v o ⟨false, sink⟩).sink
    ∧ (write_json_line v .ok ⟨true, sink⟩).sink.durable
        = sink.durable ++ sink.buffer ++ serJson v ++ ['\x0a'] := by
  obtain ⟨d, b⟩ := sink
  constructor
  · cases o <;> simp [write_json_line, lock_file]
  · simp [write_json_line, lock_file, List.append_assoc]

theorem raceInv_init (n : Nat) (line : Nat → List Char) (f0 : List Char) :
    raceInv n line f0 (raceInit f0) := by
  refine ⟨[], by simp, by simp, ?_, by simp [raceInit]⟩
  intro i
  constructor
  · intro h; simp [raceInit] at h
  · intro h; simp at h

theorem raceInv_step {n : Nat} {line : Nat → List Char} {f0 : List Char}
    {s t : RaceState} (hstep : RaceStep n line s t) (hinv : raceInv n line f0 s) :
    raceInv n line f0 t := by
  obtain ⟨ds, hnodup, hbounds, hdone, hrest⟩ := hinv
  cases hstep with
  | acquire i hi hh hw =>
    rw [hh] at hrest
    obtain ⟨hfile, hnw⟩ := hrest
    refine ⟨ds, hnodup, hbounds, ?_, ?_⟩
    · intro j
      by_cases hj : j = i
      · subst hj
        simp only [updWriter, if_pos rfl]
        constructor
        · intro h; exact absurd h (by simp)
        · intro h
          have hd := (hdone j).mpr h
          rw [hw] at hd
          exact absurd hd (by simp)
      · simp only [updWriter, if_neg hj]
        exact hdone j
    · refine ⟨hi, ?_, ⟨[], line i, by simp [updWriter], by simp, by simp [hfile]⟩, ?_⟩
      · intro hmem
        have hd := (hdone i).mpr hmem
        rw [hw] at hd
        exact absurd hd (by simp)
      · intro j hj p
        simp only [updWriter, if_neg hj]
        exact hnw j p
  | write i k p hh hw hk =>
    rw [hh] at hrest
    obtain ⟨hin, hni, ⟨w, pinv, hwi, hline, hfile⟩, hothers⟩ := hrest
    have hp : pinv = p := by
      have hx := hw.symm.trans hwi
      injection hx with hx
      exact hx.symm
    subst hp
    refine ⟨ds, hnodup, hbounds, ?_, ?_⟩
    · intro j
      by_cases hj : j = i
      · subst hj
        simp only [updWriter, if_pos rfl]
        constructor
        · intro h; exact absurd h (by simp)
        · intro h; exact absurd ((hdone j).mpr h) (by rw [hw]; simp)
      · simp only [updWriter, if_neg hj]
        exact hdone j
    · rw [hh]
      refine ⟨hin, hni, ⟨w ++ pinv.take k, pinv.drop k, by simp [updWriter], ?_, ?_⟩, ?_⟩
      · rw [hline, List.append_assoc, List.take_append_drop]
      · rw [hfile]
        simp [List.append_assoc]
      · intro j hj p
        simp only [updWriter, if_neg hj]
        exact hothers j hj p
  | release i hh hw =>
    rw [hh] at hrest
    obtain ⟨hin, hni, ⟨w, pinv, hwi, hline, hfile⟩, hothers⟩ := hrest
    have hp : pinv = [] := by
      have hx := hw.symm.trans hwi
      injection hx with hx
      exact hx.symm
    subst hp
    refine ⟨ds ++ [i], ?_, ?_, ?_, ?_⟩
    · simp [List.nodup_append, hnodup, hni]
    · intro j hj
      rcases List.mem_append.mp hj with hj | hj
      · exact hbounds j hj
      · simp at hj; subst hj; exact hin
    · intro j
      by_cases hj : j = i
      · subst hj
        simp only [updWriter, if_pos rfl]
        simp
      · simp only [updWriter, if_neg hj]
        rw [hdone j]
        simp [hj]
    · constructor
      · rw [List.append_nil] at hline
        rw [hfile, ← hline]
        simp [List.append_assoc]
      · intro j p
        by_cases hj : j = i
        · subst hj
          simp [updWriter]
        · simp only [updWriter, if_neg hj]
          exact hothers j hj p

theorem raceInv_reach {n : Nat} {line : Nat → List Char} {f0 : List Char}
    {s t : RaceState} (hreach : RaceReach n line s t) (hinv : raceInv n line f0 s) :
    raceInv n line f0 t := by
  induction hreach with
  | refl => exact hinv
  | tail t u hr hs ih => exact raceInv_step hs ih

/-- C3: emits racing on one shared attempt writer never interleave their
bytes: every serialize+write+flush happens inside the mutual-exclusion lock,
so once all concurrent emitters are done, the response file consists of the
initial contents followed by each emitter's complete line (compact event
object plus newline), contiguously, each exactly once, in some order. -/
theorem no_interleaving (n : Nat) (ts : Nat → String) (events : Nat → ResponseEvent)
    (f0 : List Char) (s : RaceState)
    (hreach : RaceReach n (fun i => serJson (event_json (ts i) (events i)) ++ ['\x0a'])
      (raceInit f0) s)
    (hdone : ∀ i, i < n → s.writer i = .done) :
    ∃ ds : List Nat, ds.Nodup ∧ (∀ i, i ∈ ds ↔ i < n)
      ∧ s.file = f0
          ++ (ds.map fun i => serJson (event_json (ts i) (events i)) ++ ['\x0a']).flatten := by
  have hinv := raceInv_reach hreach (raceInv_init n _ f0)
  obtain ⟨ds, hnodup, hbounds, hdoneiff, hrest⟩ := hinv
  cases hh : s.holder with
  | some h =>
    rw [hh] at hrest
    obtain ⟨hin, _, ⟨w, p, hwp, _, _⟩, _⟩ := hrest
    rw [hdone h hin] at hwp
    exact absurd hwp (by simp)
  | none =>
    rw [hh] at hrest
    obtain ⟨hfile, _⟩ := hrest
    exact ⟨ds, hnodup,
      fun i => ⟨fun hm => hbounds i hm, fun hi => (hdoneiff i).mp (hdone i hi)⟩, hfile⟩

theorem no_interleaving_witness :
    ∃ ds : List Nat, ds.Nodup ∧ (∀ i, i ∈ ds ↔ i < 1)
      ∧ raceS3.file = [] ++ (ds.map raceLine).flatten := by
  have st1 : RaceStep 1 raceLine (raceInit []) raceS1 :=
    RaceStep.acquire (raceInit []) 0 (by omega) rfl rfl
  have st2 : RaceStep 1 raceLine raceS1 raceS2 :=
    RaceStep.write raceS1 0 (raceLine 0).length (raceLine 0) rfl rfl (by decide)
  have st3 : RaceStep 1 raceLine raceS2 raceS3 := by
    refine RaceStep.release raceS2 0 rfl ?_
    show updWriter raceS1.writer 0 (.writing ((raceLine 0).drop (raceLine 0).length)) 0
      = .writing []
    simp [updWriter, List.drop_length]
  have hreach : RaceReach 1 raceLine (raceInit []) raceS3 :=
    .tail _ _ _ (.tail _ _ _ (.tail _ _ _ (.refl (raceInit [])) st1) st2) st3
  have hdone : ∀ i, i < 1 → raceS3.writer i = .done := by
    intro i hi
    interval_cases i
    rfl
  exact no_interleaving 1 (fun _ => "T") (fun _ => .info "m") [] raceS3 hreach hdone

theorem lookup_fsSet_self (fs : Fs) (p : FsPath) (nd : FsNode) :
    List.lookup p (fsSet fs p nd) = some nd := by
  simp [fsSet, List.lookup]

theorem lookup_fsSet_other (fs : Fs) {p q : FsPath} (nd : FsNode) (h : q ≠ p) :
    List.lookup q (fsSet fs p nd) = List.lookup q fs := by
  simp [fsSet, List.lookup, beq_eq_false_iff_ne.mpr h]

theorem open_trunc_eq {fs : Fs} {p : FsPath} {fs' : Fs} (h : open_trunc fs p = some fs') :
    fs' = fsSet fs p (.file "") := by
  unfold open_trunc at h
  cases hl : List.lookup p fs with
  | some nd =>
    rw [hl] at h
    cases nd with
    | file c => simp at h; exact h.symm
    | dir => simp at h
  | none =>
    rw [hl] at h
    cases hl2 : List.lookup p.dropLast fs with
    | some nd =>
      rw [hl2] at h
      cases nd with
      | dir => simp at h; exact h.symm
      | file c => simp at h
    | none => rw [hl2] at h; simp at h

theorem req_ne_resp_name (attempt : Nat) :
    request_file_name attempt ≠ response_file_name attempt := by
  unfold request_file_name response_file_name
  intro h
  have hd : (attempt_id attempt ++ "-request.json").data
      = (attempt_id attempt ++ "-response.jsonl").data := congrArg String.data h
  rw [String.data_append, String.data_append] at hd
  exact absurd (List.append_cancel_left hd) (by decide)

theorem req_ne_resp_path (dir : FsPath) (attempt : Nat) :
    dir ++ [request_file_name attempt] ≠ dir ++ [response_file_name attempt] := by
  intro h
  have h2 := List.append_cancel_left h
  simp at h2
  exact req_ne_resp_name attempt h2

theorem write_request_file_true {io_fail : Option Nat} {fs fs1 : Fs} {p : FsPath}
    {ts : String} {attempt : Nat} {url : String} {payload : Json}
    (h : write_request_file io_fail fs p ts attempt url payload = (true, fs1)) :
    io_fail = none
    ∧ fs1 = fsSet (fsSet fs p (.file "")) p (.file (request_file_content ts attempt url payload)) := by
  unfold write_request_file at h
  cases ho : open_trunc fs p with
  | none => rw [ho] at h; simp at h
  | some fsA =>
    rw [ho] at h
    cases io_fail with
    | some k => simp at h
    | none =>
      simp at h
      exact ⟨rfl, by rw [← h, open_trunc_eq ho]⟩

/-- C5: initializing the session router with the base-directory configuration
absent yields no router and leaves the filesystem untouched; when directory
creation fails the call still returns (no panic) with no router; a router
scoped to base/conversation-id is returned exactly when the configuration is
present and creation succeeds. -/
theorem session_router_init (cid : String) :
    (∀ fs, from_env none cid fs = (none, fs))
    ∧ (∀ base fs fs1, create_dir_all fs (base ++ [cid]) = (false, fs1) →
        (from_env (some base) cid fs).1 = none)
    ∧ (∀ base fs fs1, create_dir_all fs (base ++ [cid]) = (true, fs1) →
        from_env (some base) cid fs = (some (base ++ [cid]), fs1)) := by
  refine ⟨fun fs => rfl, ?_, ?_⟩
  · intro base fs fs1 h
    simp only [from_env, h]
  · intro base fs fs1 h
    simp only [from_env, h]

theorem session_router_init_witness :
    from_env none "c1" [] = (none, [])
    ∧ (from_env (some ["logs"]) "c1" [(["logs"], FsNode.file "x")]).1 = none
    ∧ from_env (some ["logs"]) "c1" []
        = (some ["logs", "c1"], [(["logs", "c1"], FsNode.dir), (["logs"], FsNode.dir)]) :=
  ⟨(session_router_init "c1").1 [],
   (session_router_init "c1").2.1 ["logs"] [(["logs"], FsNode.file "x")]
     [(["logs"], FsNode.file "x")] rfl,
   (session_router_init "c1").2.2 ["logs"] []
     [(["logs", "c1"], FsNode.dir), (["logs"], FsNode.dir)] rfl⟩

/-- C6: beginning an attempt yields an attempt writer exactly when both the
request-file write and the response-file creation succeed; if either fails
the call returns no writer after a warning, and whatever was already written
(in particular a fully written request file whose response file could not be
created) is left in place, not rolled back. -/
theorem begin_attempt (dir : FsPath) (io_fail : Option Nat) (ts : String) (attempt : Nat)
    (url : String) (payload : Json) (fs : Fs) :
    (∀ fs1, write_request_file io_fail fs (dir ++ [request_file_name attempt]) ts attempt url
          payload = (false, fs1) →
        log_request dir io_fail ts attempt url payload fs = (none, fs1))
    ∧ (∀ fs1, write_request_file io_fail fs (dir ++ [request_file_name attempt]) ts attempt url
          payload = (true, fs1) →
        create_response_file fs1 (dir ++ [response_file_name attempt]) = none →
        log_request dir io_fail ts attempt url payload fs = (none, fs1)
        ∧ List.lookup (dir ++ [request_file_name attempt]) fs1
            = some (.file (request_file_content ts attempt url payload)))
    ∧ (∀ fs1 fs2, write_request_file io_fail fs (dir ++ [request_file_name attempt]) ts attempt
          url payload = (true, fs1) →
        create_response_file fs1 (dir ++ [response_file_name attempt]) = some fs2 →
        log_request dir io_fail ts attempt url payload fs
          = (some (dir ++ [response_file_name attempt]), fs2)) := by
  refine ⟨?_, ?_, ?_⟩
  · intro fs1 h
    simp only [log_request, h]
  · intro fs1 h hc
    constructor
    · simp only [log_request, h, hc]
    · obtain ⟨_, hfs1⟩ := write_request_file_true h
      rw [hfs1]
      exact lookup_fsSet_self _ _ _
  · intro fs1 fs2 h hc
    simp only [log_request, h, hc]

theorem begin_attempt_witness :
    log_request ["b"] none "T" 0 "u" .null
        [(["b", "attempt-000-request.json"], FsNode.dir), (["b"], FsNode.dir)]
      = (none, [(["b", "attempt-000-request.json"], FsNode.dir), (["b"], FsNode.dir)])
    ∧ (log_request ["b"] none "T" 0 "u" .null
          [(["b", "attempt-000-response.jsonl"], FsNode.dir), (["b"], FsNode.dir)]
        = (none,
            fsSet (fsSet [(["b", "attempt-000-response.jsonl"], FsNode.dir), (["b"], FsNode.dir)]
                (["b"] ++ [request_file_name 0]) (.file ""))
              (["b"] ++ [request_file_name 0]) (.file (request_file_content "T" 0 "u" .null)))
        ∧ List.lookup (["b"] ++ [request_file_name 0])
            (fsSet (fsSet [(["b", "attempt-000-response.jsonl"], FsNode.dir), (["b"], FsNode.dir)]
                (["b"] ++ [request_file_name 0]) (.file ""))
              (["b"] ++ [request_file_name 0]) (.file (request_file_content "T" 0 "u" .null)))
            = some (.file (request_file_content "T" 0 "u" .null)))
    ∧ log_request ["b"] none "T" 0 "u" .null [(["b"], FsNode.dir)]
        = (some (["b"] ++ [response_file_name 0]),
            fsSet (fsSet (fsSet [(["b"], FsNode.dir)]
                  (["b"] ++ [request_file_name 0]) (.file ""))
                (["b"] ++ [request_file_name 0]) (.file (request_file_content "T" 0 "u" .null)))
              (["b"] ++ [response_file_name 0]) (.file "")) :=
  ⟨(begin_attempt ["b"] none "T" 0 "u" .null _).1 _ rfl,
   (begin_attempt ["b"] none "T" 0 "u" .null _).2.1 _ rfl rfl,
   (begin_attempt ["b"] none "T" 0 "u" .null _).2.2 _ _ rfl rfl⟩

/-- C7: the request- and response-file paths are functions of the
conversation directory and the attempt number alone, named with the attempt
number zero-padded to at least three digits; re-logging an attempt truncates
and replaces both files: after a successful log_request the request file
holds exactly the new record and the response file is empty, whatever the
prior filesystem contents were. -/
theorem attempt_paths_and_truncation (attempt : Nat) (dir : FsPath) (ts url : String)
    (payload : Json) (fs fs' : Fs) (respP : FsPath)
    (hsucc : log_request dir none ts attempt url payload fs = (some respP, fs')) :
    attempt_id attempt = "attempt-" ++ String.mk (pad3 (natChars attempt))
    ∧ (pad3 (natChars attempt)).length = max 3 (natChars attempt).length
    ∧ respP = dir ++ [response_file_name attempt]
    ∧ List.lookup (dir ++ [request_file_name attempt]) fs'
        = some (.file (request_file_content ts attempt url payload))
    ∧ List.lookup (dir ++ [response_file_name attempt]) fs' = some (.file "") := by
  have hpad : (pad3 (natChars attempt)).length = max 3 (natChars attempt).length := by
    simp [pad3]
    omega
  unfold log_request at hsucc
  split at hsucc
  · simp at hsucc
  · rename_i fs1 hwrf
    split at hsucc
    · rename_i fs2 hcr
      simp only [Prod.mk.injEq, Option.some.injEq] at hsucc
      obtain ⟨hresp, hfs⟩ := hsucc
      obtain ⟨_, hfs1⟩ := write_request_file_true hwrf
      have hfs2 : fs2 = fsSet fs1 (dir ++ [response_file_name attempt]) (.file "") :=
        open_trunc_eq hcr
      refine ⟨rfl, hpad, hresp.symm, ?_, ?_⟩
      · rw [← hfs, hfs2,
          lookup_fsSet_other _ _ (req_ne_resp_path dir attempt), hfs1]
        exact lookup_fsSet_self _ _ _
      · rw [← hfs, hfs2]
        exact lookup_fsSet_self _ _ _
    · simp at hsucc

theorem attempt_paths_and_truncation_witness :
    attempt_id 1 = "attempt-" ++ String.mk (pad3 (natChars 1))
    ∧ (pad3 (natChars 1)).length = max 3 (natChars 1).length
    ∧ ["b"] ++ [response_file_name 1] = ["b"] ++ [response_file_name 1]
    ∧ List.lookup (["b"] ++ [request_file_name 1])
        (fsSet (fsSet (fsSet [(["b"], FsNode.dir), (["b"] ++ [request_file_name 1], FsNode.file "old")]
              (["b"] ++ [request_file_name 1]) (.file ""))
            (["b"] ++ [request_file_name 1]) (.file (request_file_content "T" 1 "u" .null)))
          (["b"] ++ [response_file_name 1]) (.file ""))
        = some (.file (request_file_content "T" 1 "u" .null))
    ∧ List.lookup (["b"] ++ [response_file_name 1])
        (fsSet (fsSet (fsSet [(["b"], FsNode.dir), (["b"] ++ [request_file_name 1], FsNode.file "old")]
              (["b"] ++ [request_file_name 1]) (.file ""))
            (["b"] ++ [request_file_name 1]) (.file (request_file_content "T" 1 "u" .null)))
          (["b"] ++ [response_file_name 1]) (.file ""))
        = some (.file "") :=
  attempt_paths_and_truncation 1 ["b"] "T" "u" .null
    [(["b"], FsNode.dir), (["b"] ++ [request_file_name 1], FsNode.file "old")] _ _ rfl

/-- C10: when the request-file write fails, the response file for that attempt
is never opened, created, or truncated — the call yields no attempt writer
and the response path's previous contents (from any prior logging of the same
attempt) are exactly preserved. -/
theorem request_failure_leaves_response (dir : FsPath) (io_fail : Option Nat) (ts : String)
    (attempt : Nat) (url : String) (payload : Json) (fs : Fs)
    (h : (write_request_file io_fail fs (dir ++ [request_file_name attempt]) ts attempt url
        payload).1 = false) :
    (log_request dir io_fail ts attempt url payload fs).1 = none
    ∧ List.lookup (dir ++ [response_file_name attempt])
        (log_request dir io_fail ts attempt url payload fs).2
      = List.lookup (dir ++ [response_file_name attempt]) fs := by
  have hrr := req_ne_resp_path dir attempt
  cases ho : open_trunc fs (dir ++ [request_file_name attempt]) with
  | none =>
    unfold log_request write_request_file
    rw [ho]
    exact ⟨rfl, rfl⟩
  | some fsA =>
    cases hio : io_fail with
    | none =>
      exfalso
      unfold write_request_file at h
      rw [ho, hio] at h
      simp at h
    | some k =>
      refine ⟨?_, ?_⟩
      · simp only [log_request, write_request_file, ho]
      · simp only [log_request, write_request_file, ho]
        rw [lookup_fsSet_other _ _ (Ne.symm hrr), open_trunc_eq ho,
          lookup_fsSet_other _ _ (Ne.symm hrr)]

theorem request_failure_leaves_response_witness :
    (log_request ["b"] none "T" 2 "u" .null
        [(["b"], FsNode.dir), (["b", "attempt-002-request.json"], FsNode.dir),
         (["b", "attempt-002-response.jsonl"], FsNode.file "old")]).1 = none
    ∧ List.lookup (["b"] ++ [response_file_name 2])
        (log_request ["b"] none "T" 2 "u" .null
          [(["b"], FsNode.dir), (["b", "attempt-002-request.json"], FsNode.dir),
           (["b", "attempt-002-response.jsonl"], FsNode.file "old")]).2
      = List.lookup (["b"] ++ [response_file_name 2])
          [(["b"], FsNode.dir), (["b", "attempt-002-request.json"], FsNode.dir),
           (["b", "attempt-002-response.jsonl"], FsNode.file "old")] :=
  request_failure_leaves_response ["b"] none "T" 2 "u" .null _ rfl

end RequestLogging
